import Mathlib

/-!
Verification development for the VisionFlow single-page planner
(src/script.js). The definitions below are a shallow embedding of the
derived-state aggregators, the reflection save / task rollover operation,
and the category auto-growth logic of that file. JavaScript numbers that
the program only ever uses as integers are modelled as `Int`; the division
in the dashboard percentages is modelled exactly over `ℚ`, with
`Math.round` modelled by Mathlib's `round` (both round halves up).
Dynamic (possibly malformed) field contents are modelled as raw strings
together with an explicit model of JavaScript's `parseInt`.
-/

namespace VisionFlow

/-- A task record, as created by `handleAddTask` in src/script.js.
`estTime` is kept as the raw string contents of the field so that the
`parseInt(t.estTime) || 0` coercions performed at every use site can be
modelled faithfully, including on malformed data. -/
structure Task where
  id : String
  date : String
  title : String
  category : String
  subCategory : String
  estTime : String
  status : String
  deriving DecidableEq

/-- A reflection record, as created by `saveReflection` in src/script.js. -/
structure Reflection where
  id : String
  date : String
  completion : Int
  mood : Int
  overloaded : Bool
  notes : String
  deriving DecidableEq

/-! ### A model of JavaScript `parseInt`

`parseInt(s)` skips leading whitespace, accepts an optional sign, detects a
`0x`/`0X` prefix (hexadecimal), and parses the longest digit prefix; it
returns `NaN` (modelled as `none`) when no digit is found. -/

/-- Whitespace characters skipped by `parseInt`. -/
def isJsSpace (c : Char) : Bool :=
  c = ' ' || c = '\t' || c = '\n' || c = '\r'

/-- Value of a decimal digit, `none` for any other character. -/
def decDigitVal (c : Char) : Option Nat :=
  if '0' ≤ c ∧ c ≤ '9' then some (c.toNat - 48) else none

/-- Value of a hexadecimal digit, `none` for any other character. -/
def hexDigitVal (c : Char) : Option Nat :=
  if '0' ≤ c ∧ c ≤ '9' then some (c.toNat - 48)
  else if 'a' ≤ c ∧ c ≤ 'f' then some (c.toNat - 97 + 10)
  else if 'A' ≤ c ∧ c ≤ 'F' then some (c.toNat - 65 + 10)
  else none

/-- Longest prefix of digit values under the digit reader `dv`. -/
def takeDigits (dv : Char → Option Nat) : List Char → List Nat
  | [] => []
  | c :: cs =>
    match dv c with
    | some v => v :: takeDigits dv cs
    | none => []

/-- Accumulate a digit list into a number in the given base. -/
def digitsToNat (base : Nat) (ds : List Nat) : Nat :=
  ds.foldl (fun acc v => acc * base + v) 0

/-- Model of JavaScript `parseInt(s)` (radix auto-detected): `none` models
the `NaN` result. -/
def jsParseInt (s : String) : Option Int :=
  let cs := s.data.dropWhile isJsSpace
  let signed : Int × List Char :=
    match cs with
    | '-' :: rest => (-1, rest)
    | '+' :: rest => (1, rest)
    | _ => (1, cs)
  let based : Nat × List Char :=
    match signed.2 with
    | '0' :: 'x' :: rest => (16, rest)
    | '0' :: 'X' :: rest => (16, rest)
    | _ => (10, signed.2)
  let ds := takeDigits (if based.1 = 16 then hexDigitVal else decDigitVal) based.2
  if ds = [] then none
  else some (signed.1 * (digitsToNat based.1 ds : Int))

/-- The value `parseInt(x) || 0` used at every aggregation site:
an unparseable field contributes `0`. -/
def estContribution (s : String) : Int :=
  match jsParseInt s with
  | some n => n
  | none => 0

/-! ### Viewed tasks and overload statistics (src/script.js lines 255-268) -/

/-- Line 255: `tasks.filter(t => t.date === selectedDate)`. -/
def viewedTasks (tasks : List Task) (selectedDate : String) : List Task :=
  tasks.filter fun t => t.date == selectedDate

/-- The record produced by the `overloadStats` memo (the `totalHours`
display string is presentation only and is omitted). -/
structure OverloadStats where
  totalMins : Int
  totalTasks : Nat
  isOverloaded : Bool
  deriving DecidableEq

/-- Lines 257-268, `overloadStats`: a `forEach` accumulation of
`parseInt(t.estTime) || 0`, the viewed-task count, and the flag
`totalMins > 480 || viewedTasks.length > 6`. -/
def overloadStats (viewed : List Task) : OverloadStats :=
  let totalMins := viewed.foldl (fun acc t => acc + estContribution t.estTime) 0
  { totalMins := totalMins
    totalTasks := viewed.length
    isOverloaded := decide (totalMins > 480) || decide (viewed.length > 6) }

/-! ### Helper lemmas -/

theorem foldl_add_estContribution (l : List Task) (a : Int) :
    l.foldl (fun acc t => acc + estContribution t.estTime) a
      = a + (l.map fun t => estContribution t.estTime).sum := by
  induction l generalizing a with
  | nil => simp
  | cons t ts ih =>
    simp only [List.foldl_cons, List.map_cons, List.sum_cons, ih]
    ring

theorem overloadStats_totalMins (viewed : List Task) :
    (overloadStats viewed).totalMins
      = (viewed.map fun t => estContribution t.estTime).sum := by
  simp [overloadStats, foldl_add_estContribution]

/-- A sample task for concrete instances: only the `date` and `estTime`
fields matter to the aggregators exercised below. -/
def mkTask (date est : String) : Task :=
  { id := "", date := date, title := "", category := "Work",
    subCategory := "General", estTime := est, status := "Not Started" }

/-- A sample reflection for concrete instances. -/
def mkReflection (date : String) (mood : Int) : Reflection :=
  { id := "", date := date, completion := 0, mood := mood,
    overloaded := false, notes := "" }

/-- C8: for every task list T and date D, the viewed-tasks derivation
returns exactly the tasks of T whose date field equals D (membership and
multiplicity), in the same relative order as in T (sublist). -/
theorem viewedTasks_exactly_date_ordered (tasks : List Task) (D : String) :
    (viewedTasks tasks D).Sublist tasks
    ∧ (∀ t : Task, t ∈ viewedTasks tasks D ↔ t ∈ tasks ∧ t.date = D)
    ∧ (∀ t : Task, (viewedTasks tasks D).count t
        = if t.date = D then tasks.count t else 0) := by
  refine ⟨List.filter_sublist tasks, fun t => ?_, fun t => ?_⟩
  · simp [viewedTasks, List.mem_filter]
  · induction tasks with
    | nil => simp [viewedTasks]
    | cons s ts ih =>
      simp only [viewedTasks, List.filter_cons] at ih ⊢
      by_cases hs : s.date = D
      · simp only [hs, beq_self_eq_true, if_true, List.count_cons, ih]
        by_cases hts : t = s
        · subst hts; simp [hs]
        · simp [hts, Ne.symm hts]
      · have : (s.date == D) = false := by simp [hs]
        simp only [this, Bool.false_eq_true, if_false, ih, List.count_cons]
        by_cases hts : t = s
        · subst hts; simp [hs]
        · simp [Ne.symm hts]

/-- C1: the overload flag is true iff the summed estimated minutes of the
tasks dated on the selected date exceed 480 or their count exceeds 6;
5 tasks of 50 minutes give false, 7 tasks of 10 minutes give true, and a
single 500-minute task gives true. -/
theorem overload_flag_iff_thresholds :
    (∀ (tasks : List Task) (selD : String),
      (overloadStats (viewedTasks tasks selD)).isOverloaded = true ↔
        (480 < ((viewedTasks tasks selD).map fun t => estContribution t.estTime).sum
          ∨ 6 < (viewedTasks tasks selD).length))
    ∧ (overloadStats (viewedTasks
        (List.replicate 5 (mkTask "2024-01-01" "50")) "2024-01-01")).isOverloaded = false
    ∧ (overloadStats (viewedTasks
        (List.replicate 7 (mkTask "2024-01-01" "10")) "2024-01-01")).isOverloaded = true
    ∧ (overloadStats (viewedTasks
        [mkTask "2024-01-01" "500"] "2024-01-01")).isOverloaded = true := by
  refine ⟨fun tasks selD => ?_, by decide, by decide, by decide⟩
  simp [overloadStats, foldl_add_estContribution, gt_iff_lt]

/-- C10: a viewed task whose estimated-minutes field does not parse as an
integer (missing, empty, or malformed) contributes 0 minutes to the
overload total while still counting toward the task-count threshold. -/
theorem overload_total_ignores_malformed_estTime
    (ts1 ts2 : List Task) (t : Task) (h : jsParseInt t.estTime = none) :
    (overloadStats (ts1 ++ t :: ts2)).totalMins
        = (overloadStats (ts1 ++ ts2)).totalMins
    ∧ (overloadStats (ts1 ++ t :: ts2)).totalTasks
        = (overloadStats (ts1 ++ ts2)).totalTasks + 1 := by
  have hzero : estContribution t.estTime = 0 := by
    simp [estContribution, h]
  constructor
  · simp [overloadStats_totalMins, hzero]
  · simp only [overloadStats, List.length_append, List.length_cons]
    omega

/-- Witness for C10: a task with an empty estimated-minutes string and one
with non-numeric contents both contribute 0 minutes and 1 to the count. -/
theorem overload_total_ignores_malformed_estTime_witness :
    ((overloadStats ([mkTask "2024-01-01" "50"] ++ mkTask "2024-01-01" "" :: [])).totalMins
        = (overloadStats ([mkTask "2024-01-01" "50"] ++ [])).totalMins
      ∧ (overloadStats ([mkTask "2024-01-01" "50"] ++ mkTask "2024-01-01" "" :: [])).totalTasks
        = (overloadStats ([mkTask "2024-01-01" "50"] ++ [])).totalTasks + 1)
    ∧ ((overloadStats ([] ++ mkTask "2024-01-01" "undefined" :: [mkTask "2024-01-01" "30"])).totalMins
        = (overloadStats ([] ++ [mkTask "2024-01-01" "30"])).totalMins
      ∧ (overloadStats ([] ++ mkTask "2024-01-01" "undefined" :: [mkTask "2024-01-01" "30"])).totalTasks
        = (overloadStats ([] ++ [mkTask "2024-01-01" "30"])).totalTasks + 1) :=
  ⟨overload_total_ignores_malformed_estTime
      [mkTask "2024-01-01" "50"] [] (mkTask "2024-01-01" "") (by decide),
    overload_total_ignores_malformed_estTime
      [] [mkTask "2024-01-01" "30"] (mkTask "2024-01-01" "undefined") (by decide)⟩

/-! ### Reflection save with replace semantics (src/script.js lines 323-324)

`saveReflection` builds a record whose `date` is the selected date, drops
every stored reflection with that date, and appends the new record:
`reflections.filter(r => r.date !== selectedDate)` followed by
`[...updated, newRef]`. -/

/-- The reflections-list update performed by `saveReflection`
(`newRef.date` is the selected date). -/
def saveReflectionRefls (refls : List Reflection) (newRef : Reflection) : List Reflection :=
  (refls.filter fun r => r.date != newRef.date) ++ [newRef]

/-- C3: after saving, exactly one reflection is dated on the saved date,
and the at-most-one-reflection-per-date invariant is preserved. -/
theorem reflection_replace_exactly_one :
    (∀ (refls : List Reflection) (newRef : Reflection),
      ((saveReflectionRefls refls newRef).filter fun r => r.date == newRef.date).length = 1)
    ∧ (∀ (refls : List Reflection) (newRef : Reflection),
        (∀ D : String, (refls.filter fun r => r.date == D).length ≤ 1) →
        ∀ D : String,
          ((saveReflectionRefls refls newRef).filter fun r => r.date == D).length ≤ 1) := by
  constructor
  · intro refls newRef
    simp [saveReflectionRefls, List.filter_append, List.filter_filter]
  · intro refls newRef h D
    rw [saveReflectionRefls, List.filter_append, List.length_append]
    by_cases hD : newRef.date = D
    · subst hD
      simp [List.filter_filter]
    · have h1 : ((refls.filter fun r => r.date != newRef.date).filter
          fun r => r.date == D).length ≤ (refls.filter fun r => r.date == D).length :=
        ((List.filter_sublist refls).filter _).length_le
      have h2 : (([newRef].filter fun r => r.date == D)).length = 0 := by
        simp [List.filter_singleton, hD]
      have := h D
      omega

/-- Witness for C3: saving over a list that already holds a reflection for
the same date keeps exactly one reflection on that date. -/
theorem reflection_replace_exactly_one_witness :
    ((saveReflectionRefls [mkReflection "2024-01-01" 7]
        (mkReflection "2024-01-01" 9)).filter
      fun r => r.date == "2024-01-01").length = 1
    ∧ ((saveReflectionRefls [mkReflection "2024-01-01" 7]
        (mkReflection "2024-01-01" 9)).filter
      fun r => r.date == "2024-01-02").length ≤ 1 := by
  constructor
  · exact reflection_replace_exactly_one.1
      [mkReflection "2024-01-01" 7] (mkReflection "2024-01-01" 9)
  · refine reflection_replace_exactly_one.2
      [mkReflection "2024-01-01" 7] (mkReflection "2024-01-01" 9) ?_ "2024-01-02"
    intro D
    rw [List.filter_singleton]
    cases hb : (mkReflection "2024-01-01" 7).date == D <;> simp [hb]

/-! ### Category auto-growth in handleAddTask (src/script.js lines 275-300)

The JavaScript object `categories` (string keys to sub-category arrays) is
modelled as an association list with unique-key usage; the object spread
`{...categories, [mainCat]: [...categories[mainCat], subCat]}` keeps key
order and replaces the value in place, which `updateAssoc` mirrors. -/

/-- Object property read `categories[mainCat]` (`undefined` is `none`). -/
def lookupAssoc : List (String × List String) → String → Option (List String)
  | [], _ => none
  | (k, v) :: rest, key => if k = key then some v else lookupAssoc rest key

/-- Object spread replacing the value of an existing key in place. -/
def updateAssoc : List (String × List String) → String → List String →
    List (String × List String)
  | [], _, _ => []
  | (k, v) :: rest, key, nv =>
    if k = key then (k, nv) :: rest else (k, v) :: updateAssoc rest key nv

/-- The category-growth step of `handleAddTask` (lines 281-286):
`if (categories[mainCat] && !categories[mainCat].includes(subCat))` append
`subCat` to the main category's list, otherwise leave `categories` alone. -/
def addSubCategory (cats : List (String × List String)) (mainCat subCat : String) :
    List (String × List String) :=
  match lookupAssoc cats mainCat with
  | some l => if subCat ∈ l then cats else updateAssoc cats mainCat (l ++ [subCat])
  | none => cats

/-- Line 278: an empty raw sub-category field defaults to "General". -/
def defaultSubCat (s : String) : String :=
  if s = "" then "General" else s

/-- The whole categories effect of `handleAddTask`: defaulting of the raw
sub-category field followed by the auto-growth step. -/
def handleAddTaskCategories (cats : List (String × List String))
    (mainCat rawSub : String) : List (String × List String) :=
  addSubCategory cats mainCat (defaultSubCat rawSub)

/-- The seeded `defaultCategories` object (src/script.js lines 36-41). -/
def defaultCategories : List (String × List String) :=
  [("Work", ["Career Coaching", "Life Coaching", "Social Media"]),
   ("Wellness", ["Social", "Physical", "Spiritual"]),
   ("Learning", ["Reading", "Courses"]),
   ("Household", ["General Chores", "Admin"])]

theorem lookupAssoc_updateAssoc_self (cats : List (String × List String))
    (key : String) (nv l : List String) (h : lookupAssoc cats key = some l) :
    lookupAssoc (updateAssoc cats key nv) key = some nv := by
  induction cats with
  | nil => simp [lookupAssoc] at h
  | cons p rest ih =>
    obtain ⟨k, v⟩ := p
    by_cases hk : k = key
    · simp [lookupAssoc, updateAssoc, hk]
    · simp only [lookupAssoc, updateAssoc, hk, if_false] at h ⊢
      exact ih h

theorem mem_updateAssoc (cats : List (String × List String))
    (key : String) (nv : List String) (p : String × List String)
    (h : p ∈ updateAssoc cats key nv) : p ∈ cats ∨ p = (key, nv) := by
  induction cats with
  | nil => simp [updateAssoc] at h
  | cons q rest ih =>
    obtain ⟨k, v⟩ := q
    by_cases hk : k = key
    · subst hk
      simp only [updateAssoc, if_true] at h
      rcases List.mem_cons.mp h with h | h
      · exact Or.inr h
      · exact Or.inl (List.mem_cons_of_mem _ h)
    · simp only [updateAssoc, hk, if_false] at h
      rcases List.mem_cons.mp h with h | h
      · exact Or.inl (h ▸ List.mem_cons_self _ _)
      · rcases ih h with h | h
        · exact Or.inl (List.mem_cons_of_mem _ h)
        · exact Or.inr h

theorem lookupAssoc_mem (cats : List (String × List String))
    (key : String) (l : List String) (h : lookupAssoc cats key = some l) :
    (key, l) ∈ cats := by
  induction cats with
  | nil => simp [lookupAssoc] at h
  | cons q rest ih =>
    obtain ⟨k, v⟩ := q
    by_cases hk : k = key
    · subst hk
      simp only [lookupAssoc, if_true, Option.some.injEq] at h
      exact h ▸ List.mem_cons_self _ _
    · simp only [lookupAssoc, hk, if_false] at h
      exact List.mem_cons_of_mem _ (ih h)

/-- C5: adding a task whose sub-category is absent from its main
category's list appends it exactly once; a second add with the same pair
changes nothing; and duplicate-freeness of every sub-category list is
preserved. -/
theorem subcategory_auto_growth (cats : List (String × List String))
    (mainCat subCat : String) (l : List String)
    (hlook : lookupAssoc cats mainCat = some l) (hnot : subCat ∉ l) :
    lookupAssoc (addSubCategory cats mainCat subCat) mainCat = some (l ++ [subCat])
    ∧ (l ++ [subCat]).count subCat = 1
    ∧ addSubCategory (addSubCategory cats mainCat subCat) mainCat subCat
        = addSubCategory cats mainCat subCat
    ∧ ((∀ p ∈ cats, p.2.Nodup) →
        ∀ p ∈ addSubCategory cats mainCat subCat, p.2.Nodup) := by
  have h1 : addSubCategory cats mainCat subCat = updateAssoc cats mainCat (l ++ [subCat]) := by
    simp [addSubCategory, hlook, hnot]
  have h2 : lookupAssoc (addSubCategory cats mainCat subCat) mainCat = some (l ++ [subCat]) := by
    rw [h1]
    exact lookupAssoc_updateAssoc_self cats mainCat (l ++ [subCat]) l hlook
  refine ⟨h2, ?_, ?_, ?_⟩
  · rw [List.count_append]
    simp [List.count_eq_zero.mpr hnot]
  · generalize hX : addSubCategory cats mainCat subCat = X at h2 ⊢
    simp [addSubCategory, h2]
  · intro hnd p hp
    rw [h1] at hp
    rcases mem_updateAssoc cats mainCat (l ++ [subCat]) p hp with h | h
    · exact hnd p h
    · have hl : l.Nodup := hnd (mainCat, l) (lookupAssoc_mem cats mainCat l hlook)
      rw [h]
      rw [List.nodup_append]
      refine ⟨hl, List.nodup_singleton _, ?_⟩
      intro a ha hb
      rw [List.mem_singleton] at hb
      exact hnot (hb ▸ ha)

/-- Witness for C5 at the seeded default categories: adding the new
sub-category "Networking" under "Work". -/
theorem subcategory_auto_growth_witness :
    lookupAssoc (addSubCategory defaultCategories "Work" "Networking") "Work"
        = some (["Career Coaching", "Life Coaching", "Social Media"] ++ ["Networking"])
    ∧ addSubCategory (addSubCategory defaultCategories "Work" "Networking") "Work" "Networking"
        = addSubCategory defaultCategories "Work" "Networking"
    ∧ ∀ p ∈ addSubCategory defaultCategories "Work" "Networking", p.2.Nodup := by
  have h := subcategory_auto_growth defaultCategories "Work" "Networking"
    ["Career Coaching", "Life Coaching", "Social Media"] (by decide) (by decide)
  exact ⟨h.1, h.2.2.1, h.2.2.2 (by decide)⟩

/-! ### Calendar arithmetic: getNextDayStr (src/script.js lines 30-34)

`getNextDayStr` builds `new Date(dateStr + "T12:00:00")`, adds one day with
`setDate`, and takes the date part of `toISOString()`. Anchoring at local
noon makes the add daylight-saving safe; for a local UTC offset strictly
between -12 and +13 hours local noon lies on the same UTC calendar day, so
the composition is exactly next-day calendar arithmetic on the parsed
year/month/day, which is what the model below performs. A string that the
`Date` constructor rejects makes `toISOString` throw, modelled by `none`. -/

/-- Gregorian leap-year test. -/
def isLeap (y : Nat) : Bool :=
  (y % 4 == 0 && y % 100 != 0) || y % 400 == 0

/-- Number of days in month `m` of year `y`. -/
def daysInMonth (y m : Nat) : Nat :=
  if m = 2 then (if isLeap y then 29 else 28)
  else if m = 4 ∨ m = 6 ∨ m = 9 ∨ m = 11 then 30
  else 31

/-- A year/month/day triple that denotes a real calendar day. -/
def validDate (y m d : Nat) : Prop :=
  1 ≤ m ∧ m ≤ 12 ∧ 1 ≤ d ∧ d ≤ daysInMonth y m

instance (y m d : Nat) : Decidable (validDate y m d) := by
  unfold validDate; infer_instance

/-- Value of a decimal digit character. -/
def digitVal (c : Char) : Nat := c.toNat - 48

/-- Parse a strict `YYYY-MM-DD` string into a valid year/month/day triple;
`none` models the `Date` constructor producing an invalid date. -/
def parseDate (s : String) : Option (Nat × Nat × Nat) :=
  match s.data with
  | [y1, y2, y3, y4, c1, m1, m2, c2, d1, d2] =>
    if c1 = '-' ∧ c2 = '-'
        ∧ y1.isDigit ∧ y2.isDigit ∧ y3.isDigit ∧ y4.isDigit
        ∧ m1.isDigit ∧ m2.isDigit ∧ d1.isDigit ∧ d2.isDigit then
      let y := digitVal y1 * 1000 + digitVal y2 * 100 + digitVal y3 * 10 + digitVal y4
      let m := digitVal m1 * 10 + digitVal m2
      let d := digitVal d1 * 10 + digitVal d2
      if validDate y m d then some (y, m, d) else none
    else none
  | _ => none

/-- Calendar successor of a day, rolling over month and year ends. -/
def nextDate (y m d : Nat) : Nat × Nat × Nat :=
  if d < daysInMonth y m then (y, m, d + 1)
  else if m < 12 then (y, m + 1, 1)
  else (y + 1, 1, 1)

/-- Zero-pad a number to two digits, as in an ISO date string. -/
def pad2 (n : Nat) : String :=
  if n < 10 then "0" ++ toString n else toString n

/-- Zero-pad a number to four digits, as in an ISO date string. -/
def pad4 (n : Nat) : String :=
  if n < 10 then "000" ++ toString n
  else if n < 100 then "00" ++ toString n
  else if n < 1000 then "0" ++ toString n
  else toString n

/-- Render a year/month/day triple as `YYYY-MM-DD`. -/
def formatDate (ymd : Nat × Nat × Nat) : String :=
  pad4 ymd.1 ++ "-" ++ pad2 ymd.2.1 ++ "-" ++ pad2 ymd.2.2

/-- Lines 30-34, `getNextDayStr`: parse, add one day, re-render. -/
def getNextDayStr (dateStr : String) : Option String :=
  match parseDate dateStr with
  | some (y, m, d) => some (formatDate (nextDate y m d))
  | none => none

/-- Strict chronological order on year/month/day triples. -/
def dateLT (y1 m1 d1 y2 m2 d2 : Nat) : Prop :=
  y1 < y2 ∨ (y1 = y2 ∧ (m1 < m2 ∨ (m1 = m2 ∧ d1 < d2)))

/-- Chronological order (allowing equality) on year/month/day triples. -/
def dateLE (y1 m1 d1 y2 m2 d2 : Nat) : Prop :=
  dateLT y1 m1 d1 y2 m2 d2 ∨ (y1 = y2 ∧ m1 = m2 ∧ d1 = d2)

instance (y1 m1 d1 y2 m2 d2 : Nat) : Decidable (dateLT y1 m1 d1 y2 m2 d2) := by
  unfold dateLT; infer_instance

instance (y1 m1 d1 y2 m2 d2 : Nat) : Decidable (dateLE y1 m1 d1 y2 m2 d2) := by
  unfold dateLE; infer_instance

theorem daysInMonth_pos (y m : Nat) : 1 ≤ daysInMonth y m := by
  unfold daysInMonth
  split_ifs <;> omega

/-- The function `nextDate` really is the calendar successor: from a valid day
it yields a valid, strictly later day, and no valid day lies strictly
between the two. -/
theorem nextDate_correct (y m d : Nat) (hv : validDate y m d) :
    validDate (nextDate y m d).1 (nextDate y m d).2.1 (nextDate y m d).2.2
    ∧ dateLT y m d (nextDate y m d).1 (nextDate y m d).2.1 (nextDate y m d).2.2
    ∧ ∀ y2 m2 d2 : Nat, validDate y2 m2 d2 → dateLT y m d y2 m2 d2 →
        dateLE (nextDate y m d).1 (nextDate y m d).2.1 (nextDate y m d).2.2 y2 m2 d2 := by
  obtain ⟨hm1, hm2, hd1, hd2⟩ := hv
  by_cases h1 : d < daysInMonth y m
  · have hn : nextDate y m d = (y, m, d + 1) := by
      unfold nextDate; rw [if_pos h1]
    rw [hn]
    dsimp only
    refine ⟨⟨hm1, hm2, by omega, h1⟩, Or.inr ⟨rfl, Or.inr ⟨rfl, by omega⟩⟩, ?_⟩
    intro y2 m2 d2 hv2 hlt
    obtain ⟨hm1b, hm2b, hd1b, hd2b⟩ := hv2
    rcases hlt with hy | ⟨hy, hm | ⟨hm, hd⟩⟩
    · exact Or.inl (Or.inl hy)
    · exact Or.inl (Or.inr ⟨hy, Or.inl hm⟩)
    · subst hy; subst hm
      unfold dateLE dateLT
      omega
  · by_cases h2 : m < 12
    · have hn : nextDate y m d = (y, m + 1, 1) := by
        unfold nextDate; rw [if_neg h1, if_pos h2]
      rw [hn]
      dsimp only
      refine ⟨⟨by omega, by omega, le_refl 1, daysInMonth_pos y (m + 1)⟩,
        Or.inr ⟨rfl, Or.inl (by omega)⟩, ?_⟩
      intro y2 m2 d2 hv2 hlt
      obtain ⟨hm1b, hm2b, hd1b, hd2b⟩ := hv2
      rcases hlt with hy | ⟨hy, hm | ⟨hm, hd⟩⟩
      · exact Or.inl (Or.inl hy)
      · subst hy
        unfold dateLE dateLT
        omega
      · subst hy; subst hm
        unfold dateLE dateLT
        omega
    · have hn : nextDate y m d = (y + 1, 1, 1) := by
        unfold nextDate; rw [if_neg h1, if_neg h2]
      rw [hn]
      dsimp only
      refine ⟨⟨le_refl 1, by omega, le_refl 1, daysInMonth_pos (y + 1) 1⟩,
        Or.inl (by omega), ?_⟩
      intro y2 m2 d2 hv2 hlt
      obtain ⟨hm1b, hm2b, hd1b, hd2b⟩ := hv2
      rcases hlt with hy | ⟨hy, hm | ⟨hm, hd⟩⟩
      · unfold dateLE dateLT
        omega
      · subst hy
        unfold dateLE dateLT
        omega
      · subst hy; subst hm
        unfold dateLE dateLT
        omega

/-! ### Task rollover inside saveReflection (src/script.js lines 327-344) -/

/-- The guard of line 332: the task is dated on the viewed day, is not
done, and its recycle checkbox (keyed by task id) is checked. -/
def rolloverCondition (t : Task) (selectedDate : String) (recycle : String → Bool) : Prop :=
  t.date = selectedDate ∧ t.status ≠ "Done" ∧ recycle t.id = true

instance (t : Task) (s : String) (r : String → Bool) :
    Decidable (rolloverCondition t s r) := by
  unfold rolloverCondition; infer_instance

/-- The task-list update of `saveReflection` (lines 327-337): compute the
next day from the selected date and re-date every task passing the
rollover guard; `none` models the invalid-date exception path. -/
def rolloverTasks (tasks : List Task) (selectedDate : String)
    (recycle : String → Bool) : Option (List Task) :=
  match getNextDayStr selectedDate with
  | some nextDayStr =>
    some (tasks.map fun t =>
      if rolloverCondition t selectedDate recycle
      then { t with date := nextDayStr } else t)
  | none => none

/-- C2: the computed next day of 2024-03-31 is 2024-04-01; `nextDate` is
the calendar successor of every valid day; and every task passing the
rollover guard gets its date reassigned to the computed next day with its
status (and every other field) unchanged. -/
theorem rollover_next_day :
    getNextDayStr "2024-03-31" = some "2024-04-01"
    ∧ (∀ y m d : Nat, validDate y m d →
        validDate (nextDate y m d).1 (nextDate y m d).2.1 (nextDate y m d).2.2
        ∧ dateLT y m d (nextDate y m d).1 (nextDate y m d).2.1 (nextDate y m d).2.2
        ∧ ∀ y2 m2 d2 : Nat, validDate y2 m2 d2 → dateLT y m d y2 m2 d2 →
            dateLE (nextDate y m d).1 (nextDate y m d).2.1 (nextDate y m d).2.2 y2 m2 d2)
    ∧ (∀ (tasks : List Task) (selD : String) (recycle : String → Bool) (out : List Task),
        rolloverTasks tasks selD recycle = some out →
        ∀ (i : Nat) (h : i < tasks.length), rolloverCondition tasks[i] selD recycle →
          ∃ nd, getNextDayStr selD = some nd
            ∧ out[i]? = some { tasks[i] with date := nd }) := by
  refine ⟨by decide, nextDate_correct, ?_⟩
  intro tasks selD recycle out hro i h hcond
  unfold rolloverTasks at hro
  cases hnd : getNextDayStr selD with
  | none => rw [hnd] at hro; exact absurd hro (by simp)
  | some nd =>
    rw [hnd] at hro
    simp only [Option.some.injEq] at hro
    refine ⟨nd, rfl, ?_⟩
    subst hro
    rw [List.getElem?_map, List.getElem?_eq_getElem h]
    simp only [Option.map_some']
    rw [if_pos hcond]

/-- Witness for C2: the month boundary 2024-03-31 to 2024-04-01, and one
unfinished selected task on 2024-03-31 being re-dated to 2024-04-01. -/
theorem rollover_next_day_witness :
    (validDate (nextDate 2024 3 31).1 (nextDate 2024 3 31).2.1 (nextDate 2024 3 31).2.2
      ∧ dateLT 2024 3 31 (nextDate 2024 3 31).1 (nextDate 2024 3 31).2.1 (nextDate 2024 3 31).2.2
      ∧ dateLE (nextDate 2024 3 31).1 (nextDate 2024 3 31).2.1 (nextDate 2024 3 31).2.2 2024 4 1)
    ∧ (∃ nd, getNextDayStr "2024-03-31" = some nd
        ∧ ([mkTask "2024-04-01" "30"] : List Task)[0]?
            = some { ([mkTask "2024-03-31" "30"] : List Task)[0] with date := nd }) := by
  have h := rollover_next_day
  have h2 := h.2.1 2024 3 31 (by decide)
  refine ⟨⟨h2.1, h2.2.1, h2.2.2 2024 4 1 (by decide) (by decide)⟩, ?_⟩
  exact h.2.2 [mkTask "2024-03-31" "30"] "2024-03-31" (fun _ => true)
    [mkTask "2024-04-01" "30"] (by decide) 0 (by decide) (by decide)

/-- C9: the rollover pass leaves every task that fails the rollover guard
(wrong date, already done, or not selected) entirely unchanged, in place. -/
theorem rollover_frame (tasks : List Task) (selD : String)
    (recycle : String → Bool) (out : List Task)
    (hro : rolloverTasks tasks selD recycle = some out) :
    out.length = tasks.length
    ∧ ∀ (i : Nat) (h : i < tasks.length), ¬ rolloverCondition tasks[i] selD recycle →
        out[i]? = some tasks[i] := by
  unfold rolloverTasks at hro
  cases hnd : getNextDayStr selD with
  | none => rw [hnd] at hro; exact absurd hro (by simp)
  | some nd =>
    rw [hnd] at hro
    simp only [Option.some.injEq] at hro
    subst hro
    refine ⟨List.length_map _ _, ?_⟩
    intro i h hcond
    rw [List.getElem?_map, List.getElem?_eq_getElem h]
    simp only [Option.map_some']
    rw [if_neg hcond]

/-- Witness for C9: a done task on the viewed day, a task on another day,
and an unselected unfinished task all survive the rollover unchanged. -/
theorem rollover_frame_witness :
    (∃ out, rolloverTasks
        [{ mkTask "2024-03-31" "30" with status := "Done" },
         mkTask "2024-02-10" "20",
         mkTask "2024-03-31" "40"] "2024-03-31" (fun _ => false) = some out
      ∧ out.length = 3
      ∧ out[0]? = some { mkTask "2024-03-31" "30" with status := "Done" }
      ∧ out[1]? = some (mkTask "2024-02-10" "20")
      ∧ out[2]? = some (mkTask "2024-03-31" "40")) := by
  have h := rollover_frame
    [{ mkTask "2024-03-31" "30" with status := "Done" },
     mkTask "2024-02-10" "20",
     mkTask "2024-03-31" "40"] "2024-03-31" (fun _ => false)
    [{ mkTask "2024-03-31" "30" with status := "Done" },
     mkTask "2024-02-10" "20",
     mkTask "2024-03-31" "40"] (by decide)
  exact ⟨_, by decide, h.1, h.2 0 (by decide) (by decide),
    h.2 1 (by decide) (by decide), h.2 2 (by decide) (by decide)⟩

/-! ### Reminder banner gates (src/script.js lines 271-272, 460, 588) -/

/-- Line 271: `currentHour === 9 && currentMinute >= 30 && currentHour < 12`.
The last conjunct is redundant given the first, so the predicate only
holds from 09:30 to 09:59. -/
def isMorningReviewTime (currentHour currentMinute : Nat) : Bool :=
  currentHour == 9 && decide (30 ≤ currentMinute) && decide (currentHour < 12)

/-- Line 272: `currentHour >= 22 || (currentHour === 22 && currentMinute >= 30)`
(the second disjunct is subsumed by the first). -/
def isEveningReflectionTime (currentHour currentMinute : Nat) : Bool :=
  decide (22 ≤ currentHour) || (currentHour == 22 && decide (30 ≤ currentMinute))

/-- Line 460: the morning banner renders only when the morning predicate
holds AND the viewed date is the actual today. -/
def morningBannerVisible (currentHour currentMinute : Nat)
    (selectedDate actualToday : String) : Bool :=
  isMorningReviewTime currentHour currentMinute && (selectedDate == actualToday)

/-- Line 588: the evening banner is gated by
`(isEveningReflectionTime || true)`, which is always true. -/
def eveningBannerVisible (currentHour currentMinute : Nat) : Bool :=
  isEveningReflectionTime currentHour currentMinute || true

/-- C4 (code-bug exhibit): at 10:15, inside the documented 09:30-11:59
morning window, the rendered predicate is false (the code pins the hour to
exactly 9); at 09:45 it is true but the banner still hides when another
date is viewed; and at 03:00, far outside the documented from-22:00
window, the evening banner is nevertheless shown because line 588 ORs the
predicate with `true`. -/
theorem reminder_banners_diverge_from_spec :
    isMorningReviewTime 10 15 = false
    ∧ isMorningReviewTime 9 45 = true
    ∧ morningBannerVisible 9 45 "2024-01-02" "2024-01-01" = false
    ∧ isEveningReflectionTime 3 0 = false
    ∧ eveningBannerVisible 3 0 = true := by decide

/-! ### Mood trend (src/script.js lines 655, 697-698)

`last7Reflections` is `[...reflections].sort((a, b) => new Date(a.date) -
new Date(b.date)).slice(-7)`: a stable ascending sort on the parsed date
followed by taking the last (up to) 7 entries. For valid ISO dates the
numeric `Date` comparison agrees with the lexicographic year/month/day
order, encoded below as a single key. -/

/-- Sort key of a reflection: its parsed date, packed order-isomorphically
(month and day both fit in 5 bits). -/
def reflDateKey (r : Reflection) : Nat :=
  match parseDate r.date with
  | some (y, m, d) => y * 512 + m * 32 + d
  | none => 0

/-- Stable insertion of a reflection into a date-sorted list: the element
being inserted originates earlier in the traversal, so it goes before
entries with an equal key. -/
def insertByDate (r : Reflection) : List Reflection → List Reflection
  | [] => [r]
  | x :: xs =>
    if reflDateKey r ≤ reflDateKey x then r :: x :: xs
    else x :: insertByDate r xs

/-- Stable ascending sort by date. -/
def sortByDate : List Reflection → List Reflection
  | [] => []
  | r :: rs => insertByDate r (sortByDate rs)

/-- Line 655: the `slice(-7)` of the date-sorted reflections. -/
def last7Reflections (refls : List Reflection) : List Reflection :=
  (sortByDate refls).drop ((sortByDate refls).length - 7)

/-- Lines 697-698: left-pad the moods of the last 7 reflections with the
neutral mood 5 up to exactly 7 chart points. -/
def paddedMoods (refls : List Reflection) : List Int :=
  List.replicate (7 - (last7Reflections refls).length) 5
    ++ (last7Reflections refls).map (fun r => r.mood)

theorem length_insertByDate (r : Reflection) (l : List Reflection) :
    (insertByDate r l).length = l.length + 1 := by
  induction l with
  | nil => rfl
  | cons x xs ih =>
    unfold insertByDate
    split_ifs <;> simp [ih]

theorem length_sortByDate (l : List Reflection) :
    (sortByDate l).length = l.length := by
  induction l with
  | nil => rfl
  | cons r rs ih => simp [sortByDate, length_insertByDate, ih]

/-- C7: the mood trend sequence always has exactly 7 points, its prefix is
the neutral padding 5, its suffix is the moods of the last (up to) 7
date-sorted reflections, and three reflections with moods 8, 6, 7 in date
order produce [5, 5, 5, 5, 8, 6, 7]. -/
theorem mood_trend_seven_points :
    (∀ refls : List Reflection,
      (paddedMoods refls).length = 7
      ∧ (paddedMoods refls).take (7 - (last7Reflections refls).length)
          = List.replicate (7 - (last7Reflections refls).length) 5
      ∧ (paddedMoods refls).drop (7 - (last7Reflections refls).length)
          = (last7Reflections refls).map (fun r => r.mood))
    ∧ paddedMoods [mkReflection "2024-01-02" 6, mkReflection "2024-01-01" 8,
        mkReflection "2024-01-03" 7] = [5, 5, 5, 5, 8, 6, 7] := by
  refine ⟨fun refls => ?_, by decide⟩
  have hL : (last7Reflections refls).length ≤ 7 := by
    unfold last7Reflections
    rw [List.length_drop]
    omega
  have hrep : (List.replicate (7 - (last7Reflections refls).length) (5 : Int)).length
      = 7 - (last7Reflections refls).length := List.length_replicate _ _
  refine ⟨?_, ?_, ?_⟩
  · unfold paddedMoods
    rw [List.length_append, hrep, List.length_map]
    omega
  · unfold paddedMoods
    exact List.take_left' hrep
  · unfold paddedMoods
    exact List.drop_left' hrep

/-! ### Weekly time distribution (src/script.js lines 660-694, 742)

The dashboard filters tasks to the trailing seven days (a clock-dependent
window, abstracted here as a predicate on the date string), buckets
estimated minutes by main category in a string-keyed object seeded with
zeros for every category key, guards the zero total with `|| 1`, and
displays `Math.round((time / totalWeeklyTime) * 100)` for each bucket with
positive time. JavaScript float division is modelled exactly over `ℚ`. -/

/-- Line 662: `tasks.filter(t => new Date(t.date) >= last7DaysDate)`,
with the trailing-seven-days test abstracted as `inWindow`. -/
def weeklyTasks (tasks : List Task) (inWindow : String → Bool) : List Task :=
  tasks.filter fun t => inWindow t.date

/-- Line 668: an empty or missing task category buckets under "Other". -/
def taskBucketCat (t : Task) : String :=
  if t.category = "" then "Other" else t.category

/-- One `weeklyTimeByCategory[cat] += v` step on the string-keyed object,
creating the key with the added value when absent (lines 669-670). -/
def bumpBucket : List (String × Int) → String → Int → List (String × Int)
  | [], cat, v => [(cat, v)]
  | (k, x) :: rest, cat, v =>
    if k = cat then (k, x + v) :: rest else (k, x) :: bumpBucket rest cat v

/-- Lines 664-671: seed a zero bucket per category key, then accumulate
each weekly task's parsed estimated minutes into its category bucket. -/
def weeklyTimeByCategory (cats : List (String × List String))
    (wtasks : List Task) : List (String × Int) :=
  wtasks.foldl
    (fun acc t => bumpBucket acc (taskBucketCat t) (estContribution t.estTime))
    (cats.map fun c => (c.1, (0 : Int)))

/-- Line 673: `Object.values(weeklyTimeByCategory).reduce((a,b)=>a+b, 0)`, before the
`|| 1` guard. -/
def totalWeeklyTime (buckets : List (String × Int)) : Int :=
  (buckets.map Prod.snd).sum

/-- The `|| 1` guard of line 673: a zero total is replaced by 1. -/
def weeklyDivisor (buckets : List (String × Int)) : Int :=
  if totalWeeklyTime buckets = 0 then 1 else totalWeeklyTime buckets

/-- Line 742: `Math.round((time / totalWeeklyTime) * 100)`. -/
def bucketPct (buckets : List (String × Int)) (time : Int) : Int :=
  round ((time : ℚ) / (weeklyDivisor buckets : ℚ) * 100)

theorem cast_total (B : List (String × Int)) :
    ((totalWeeklyTime B : Int) : ℚ) = (B.map fun p => (p.2 : ℚ)).sum := by
  unfold totalWeeklyTime
  induction B with
  | nil => simp
  | cons p l ih =>
    simp only [List.map_cons, List.sum_cons]
    push_cast
    rw [← ih]
    push_cast
    ring

theorem sum_map_div_mul (B : List (String × Int)) (c : ℚ) :
    (B.map fun p => (p.2 : ℚ) / c * 100).sum
      = (B.map fun p => (p.2 : ℚ)).sum / c * 100 := by
  induction B with
  | nil => simp
  | cons p l ih =>
    simp only [List.map_cons, List.sum_cons, ih]
    ring

/-- Dropping a rounded value's distance to the exact value: summed over a
list, the rounding error is at most one half per entry that is not
exactly zero (a zero entry rounds to itself). -/
theorem round_list_err (l : List ℚ) :
    |(l.map fun q => ((round q : Int) : ℚ)).sum - l.sum|
      ≤ ((l.filter fun q => decide (q ≠ 0)).length : ℚ) / 2 := by
  induction l with
  | nil => simp
  | cons q l ih =>
    simp only [List.map_cons, List.sum_cons, List.filter_cons]
    by_cases hq : q = 0
    · subst hq
      have hd : (decide ((0 : ℚ) ≠ 0)) = false := by simp
      rw [hd]
      simp only [Bool.false_eq_true, if_false, round_zero, Int.cast_zero, zero_add]
      exact ih
    · have hd : (decide (q ≠ 0)) = true := by simp [hq]
      rw [hd]
      simp only [if_true, List.length_cons]
      have h1 : |((round q : Int) : ℚ) - q| ≤ 1 / 2 := by
        rw [abs_sub_comm]
        exact abs_sub_round q
      have h2 : |((round q : Int) : ℚ) + (l.map fun r => ((round r : Int) : ℚ)).sum
            - (q + l.sum)|
          ≤ |((round q : Int) : ℚ) - q|
            + |(l.map fun r => ((round r : Int) : ℚ)).sum - l.sum| := by
        have := abs_add (((round q : Int) : ℚ) - q)
          ((l.map fun r => ((round r : Int) : ℚ)).sum - l.sum)
        calc |((round q : Int) : ℚ) + (l.map fun r => ((round r : Int) : ℚ)).sum - (q + l.sum)|
            = |(((round q : Int) : ℚ) - q)
                + ((l.map fun r => ((round r : Int) : ℚ)).sum - l.sum)| := by ring_nf
          _ ≤ _ := this
      push_cast
      push_cast at ih
      linarith

/-- Buckets with zero time contribute zero to the displayed percentage
sum, so restricting to the non-zero buckets does not change it. -/
theorem sum_filter_nonzero (B : List (String × Int)) (f : String × Int → ℚ)
    (hf : ∀ p, p.2 = 0 → f p = 0) :
    ((B.filter fun p => decide (p.2 ≠ 0)).map f).sum = (B.map f).sum := by
  induction B with
  | nil => rfl
  | cons p l ih =>
    rw [List.filter_cons]
    by_cases hp : p.2 = 0
    · have hd : (decide (p.2 ≠ 0)) = false := by simp [hp]
      rw [hd]
      simp only [Bool.false_eq_true, if_false, List.map_cons, List.sum_cons, ih,
        hf p hp, zero_add]
    · have hd : (decide (p.2 ≠ 0)) = true := by simp [hp]
      rw [hd]
      simp only [if_true, List.map_cons, List.sum_cons, ih]

/-- When the weekly total is positive, the rounded percentages of the
non-zero buckets sum to 100 up to half a point of rounding error each. -/
theorem pct_sum_within_rounding (B : List (String × Int))
    (hT : 0 < totalWeeklyTime B) :
    |((B.filter fun p => decide (p.2 ≠ 0)).map fun p => (bucketPct B p.2 : ℚ)).sum - 100|
      ≤ ((B.filter fun p => decide (p.2 ≠ 0)).length : ℚ) / 2 := by
  have hTne : totalWeeklyTime B ≠ 0 := by omega
  have hdiv : weeklyDivisor B = totalWeeklyTime B := by
    unfold weeklyDivisor
    rw [if_neg hTne]
  have hTq : ((totalWeeklyTime B : Int) : ℚ) ≠ 0 := Int.cast_ne_zero.mpr hTne
  have hround : ∀ p : String × Int,
      (bucketPct B p.2 : ℚ)
        = ((round ((p.2 : ℚ) / ((totalWeeklyTime B : Int) : ℚ) * 100) : Int) : ℚ) := by
    intro p
    rw [bucketPct, hdiv]
  have hq0 : ∀ p : String × Int, p.2 = 0 → (bucketPct B p.2 : ℚ) = 0 := by
    intro p hp
    simp [bucketPct, hp]
  rw [sum_filter_nonzero B _ hq0]
  have hsum : (B.map fun p => (p.2 : ℚ) / ((totalWeeklyTime B : Int) : ℚ) * 100).sum
      = 100 := by
    rw [sum_map_div_mul, ← cast_total, div_self hTq, one_mul]
  have herr := round_list_err
    (B.map fun p => (p.2 : ℚ) / ((totalWeeklyTime B : Int) : ℚ) * 100)
  rw [List.map_map, hsum] at herr
  simp only [Function.comp_def] at herr
  have hmapeq : (B.map fun p => (bucketPct B p.2 : ℚ))
      = B.map fun p =>
          ((round ((p.2 : ℚ) / ((totalWeeklyTime B : Int) : ℚ) * 100) : Int) : ℚ) := by
    apply List.map_congr_left
    intro p _
    exact hround p
  have hflen : ((B.map fun p => (p.2 : ℚ) / ((totalWeeklyTime B : Int) : ℚ) * 100).filter
        fun r => decide (r ≠ 0)).length
      = (B.filter fun p => decide (p.2 ≠ 0)).length := by
    rw [List.filter_map, List.length_map]
    congr 1
    apply List.filter_congr
    intro p _
    simp only [Function.comp]
    rw [decide_eq_decide]
    constructor
    · intro h hzero
      exact h (by rw [hzero]; simp)
    · intro h hzero
      apply h
      rcases mul_eq_zero.mp hzero with h2 | h2
      · rcases div_eq_zero_iff.mp h2 with h3 | h3
        · exact_mod_cast h3
        · exact absurd h3 hTq
      · norm_num at h2
  rw [hmapeq]
  rw [← hflen]
  exact herr

theorem bumpBucket_nonneg (acc : List (String × Int)) (cat : String) (v : Int)
    (hacc : ∀ p ∈ acc, 0 ≤ p.2) (hv : 0 ≤ v) :
    ∀ p ∈ bumpBucket acc cat v, 0 ≤ p.2 := by
  induction acc with
  | nil =>
    intro p hp
    simp only [bumpBucket, List.mem_singleton] at hp
    rw [hp]
    exact hv
  | cons q rest ih =>
    obtain ⟨k, x⟩ := q
    intro p hp
    by_cases hk : k = cat
    · simp only [bumpBucket, hk, if_true] at hp
      rcases List.mem_cons.mp hp with h | h
      · rw [h]
        have := hacc (k, x) (List.mem_cons_self _ _)
        simp only at this
        simp only
        omega
      · exact hacc p (List.mem_cons_of_mem _ h)
    · simp only [bumpBucket, hk, if_false] at hp
      rcases List.mem_cons.mp hp with h | h
      · rw [h]
        exact hacc (k, x) (List.mem_cons_self _ _)
      · exact ih (fun r hr => hacc r (List.mem_cons_of_mem _ hr)) p h

theorem weeklyTimeByCategory_nonneg (cats : List (String × List String))
    (wtasks : List Task)
    (h : ∀ t ∈ wtasks, 0 ≤ estContribution t.estTime) :
    ∀ p ∈ weeklyTimeByCategory cats wtasks, 0 ≤ p.2 := by
  have main : ∀ (l : List Task) (init : List (String × Int)),
      (∀ t ∈ l, 0 ≤ estContribution t.estTime) →
      (∀ p ∈ init, 0 ≤ p.2) →
      ∀ p ∈ l.foldl
          (fun acc t => bumpBucket acc (taskBucketCat t) (estContribution t.estTime))
          init, 0 ≤ p.2 := by
    intro l
    induction l with
    | nil => intro init _ hinit p hp; exact hinit p hp
    | cons t ts ih =>
      intro init hl hinit p hp
      rw [List.foldl_cons] at hp
      exact ih _ (fun s hs => hl s (List.mem_cons_of_mem _ hs))
        (bumpBucket_nonneg init (taskBucketCat t) (estContribution t.estTime)
          hinit (hl t (List.mem_cons_self _ _)))
        p hp
  intro p hp
  refine main wtasks _ h ?_ p hp
  intro q hq
  rcases List.mem_map.mp hq with ⟨c, _, hc⟩
  rw [← hc]

theorem int_list_all_zero (l : List Int) (h : ∀ x ∈ l, 0 ≤ x)
    (hs : l.sum = 0) : ∀ x ∈ l, x = 0 := by
  induction l with
  | nil => intro x hx; simp at hx
  | cons a l ih =>
    have hnn : 0 ≤ l.sum :=
      List.sum_nonneg fun x hx => h x (List.mem_cons_of_mem _ hx)
    have ha : 0 ≤ a := h a (List.mem_cons_self _ _)
    rw [List.sum_cons] at hs
    have ha0 : a = 0 := by omega
    have hl0 : l.sum = 0 := by omega
    intro x hx
    rcases List.mem_cons.mp hx with hx | hx
    · rw [hx, ha0]
    · exact ih (fun y hy => h y (List.mem_cons_of_mem _ hy)) hl0 x hx

/-- With a zero total (and the data model's nonnegative minute
contributions) every bucket is zero and every displayed percentage is
`round(0 / 1 * 100) = 0`, the divisor having been replaced by 1. -/
theorem pct_zero_of_total_zero (B : List (String × Int))
    (hnn : ∀ p ∈ B, 0 ≤ p.2) (hT : totalWeeklyTime B = 0) :
    ∀ p ∈ B, bucketPct B p.2 = 0 := by
  intro p hp
  have hz : p.2 = 0 := by
    refine int_list_all_zero (B.map Prod.snd) ?_ hT p.2 (List.mem_map.mpr ⟨p, hp, rfl⟩)
    intro x hx
    rcases List.mem_map.mp hx with ⟨q, hq, hxx⟩
    exact hxx ▸ hnn q hq
  simp [bucketPct, hz]

/-- C6: over the weekly aggregation of any task list, the rounded
percentages of the non-zero buckets sum to 100 within rounding error (half
a point per bucket) whenever the weekly total is positive; and when the
total is zero (contributions being nonnegative as the data model
prescribes) every bucket's percentage is 0, the divisor being treated
as 1. -/
theorem weekly_distribution_percentages (cats : List (String × List String))
    (tasks : List Task) (inWindow : String → Bool) :
    (0 < totalWeeklyTime (weeklyTimeByCategory cats (weeklyTasks tasks inWindow)) →
      |(((weeklyTimeByCategory cats (weeklyTasks tasks inWindow)).filter
            fun p => decide (p.2 ≠ 0)).map
          fun p => (bucketPct (weeklyTimeByCategory cats (weeklyTasks tasks inWindow)) p.2 : ℚ)).sum
          - 100|
        ≤ (((weeklyTimeByCategory cats (weeklyTasks tasks inWindow)).filter
            fun p => decide (p.2 ≠ 0)).length : ℚ) / 2)
    ∧ ((∀ t ∈ weeklyTasks tasks inWindow, 0 ≤ estContribution t.estTime) →
        totalWeeklyTime (weeklyTimeByCategory cats (weeklyTasks tasks inWindow)) = 0 →
        ∀ p ∈ weeklyTimeByCategory cats (weeklyTasks tasks inWindow),
          bucketPct (weeklyTimeByCategory cats (weeklyTasks tasks inWindow)) p.2 = 0) := by
  constructor
  · exact pct_sum_within_rounding _
  · intro hnn hT
    exact pct_zero_of_total_zero _ (weeklyTimeByCategory_nonneg cats _ hnn) hT

/-- Witness for C6: a 60-minute Work task and a 30-minute Wellness task in
the window give a positive total whose non-zero bucket percentages sum to
100 within rounding; with no weekly tasks the total is zero and every
seeded bucket displays 0 percent. -/
theorem weekly_distribution_percentages_witness :
    (0 < totalWeeklyTime (weeklyTimeByCategory defaultCategories
        (weeklyTasks [mkTask "2024-01-01" "60",
          { mkTask "2024-01-01" "30" with category := "Wellness" }] fun _ => true))
      ∧ |(((weeklyTimeByCategory defaultCategories
            (weeklyTasks [mkTask "2024-01-01" "60",
              { mkTask "2024-01-01" "30" with category := "Wellness" }] fun _ => true)).filter
              fun p => decide (p.2 ≠ 0)).map
            fun p => (bucketPct (weeklyTimeByCategory defaultCategories
              (weeklyTasks [mkTask "2024-01-01" "60",
                { mkTask "2024-01-01" "30" with category := "Wellness" }] fun _ => true)) p.2 : ℚ)).sum
            - 100|
          ≤ (((weeklyTimeByCategory defaultCategories
              (weeklyTasks [mkTask "2024-01-01" "60",
                { mkTask "2024-01-01" "30" with category := "Wellness" }] fun _ => true)).filter
              fun p => decide (p.2 ≠ 0)).length : ℚ) / 2)
    ∧ (∀ p ∈ weeklyTimeByCategory defaultCategories
          (weeklyTasks ([] : List Task) fun _ => true),
        bucketPct (weeklyTimeByCategory defaultCategories
          (weeklyTasks ([] : List Task) fun _ => true)) p.2 = 0) := by
  refine ⟨⟨by decide, ?_⟩, ?_⟩
  · exact (weekly_distribution_percentages defaultCategories
      [mkTask "2024-01-01" "60",
        { mkTask "2024-01-01" "30" with category := "Wellness" }] (fun _ => true)).1
      (by decide)
  · exact (weekly_distribution_percentages defaultCategories [] (fun _ => true)).2
      (by decide) (by decide)

/-- C6 counterexample: a task entered with estimated minutes "-30" (the
number input enforces no minimum and `parseInt` accepts a sign) next to a
30-minute Wellness task makes the weekly total 0 while the Wellness bucket
holds 30, whose displayed percentage is round(30 / 1 * 100) = 3000, not 0:
the zero-total clause of the claim fails without a nonnegativity proviso. -/
theorem weekly_zero_total_pct_counterexample :
    totalWeeklyTime (weeklyTimeByCategory defaultCategories
      (weeklyTasks [mkTask "2024-01-01" "-30",
        { mkTask "2024-01-01" "30" with category := "Wellness" }] fun _ => true)) = 0
    ∧ ¬ (∀ p ∈ weeklyTimeByCategory defaultCategories
          (weeklyTasks [mkTask "2024-01-01" "-30",
            { mkTask "2024-01-01" "30" with category := "Wellness" }] fun _ => true),
        bucketPct (weeklyTimeByCategory defaultCategories
          (weeklyTasks [mkTask "2024-01-01" "-30",
            { mkTask "2024-01-01" "30" with category := "Wellness" }] fun _ => true)) p.2 = 0) := by
  constructor
  · decide
  · intro h
    have hmem := h ("Wellness", 30) (by decide)
    have hT0 : totalWeeklyTime (weeklyTimeByCategory defaultCategories
        (weeklyTasks [mkTask "2024-01-01" "-30",
          { mkTask "2024-01-01" "30" with category := "Wellness" }] fun _ => true)) = 0 := by
      decide
    unfold bucketPct weeklyDivisor at hmem
    rw [if_pos hT0] at hmem
    dsimp only at hmem
    rw [show (((30 : Int) : ℚ) / ((1 : Int) : ℚ) * 100) = ((3000 : Int) : ℚ) by
      push_cast; norm_num] at hmem
    rw [round_intCast] at hmem
    norm_num at hmem

end VisionFlow
